import Mathlib

/-!
Shallow embedding of the VoxelGame renderer core (src/camera.rs, src/main.rs,
src/model.rs) over exact real arithmetic, together with proofs of the spec's
claims about it.  f32 values are modelled as real numbers; cgmath's vector,
quaternion and matrix operations are translated operation by operation from
the cgmath sources that the repository calls into.
-/

noncomputable section

namespace VoxelGame

/-- cgmath `Vector3<f32>`, embedded over the reals. -/
@[ext]
structure Vec3 where
  x : ℝ
  y : ℝ
  z : ℝ

instance : Add Vec3 := ⟨fun a b => ⟨a.x + b.x, a.y + b.y, a.z + b.z⟩⟩
instance : Sub Vec3 := ⟨fun a b => ⟨a.x - b.x, a.y - b.y, a.z - b.z⟩⟩
instance : Neg Vec3 := ⟨fun a => ⟨-a.x, -a.y, -a.z⟩⟩

namespace Vec3

/-- cgmath `Vector3::zero()`. -/
def zero : Vec3 := ⟨0, 0, 0⟩

/-- cgmath `Vector3::unit_y()`. -/
def unit_y : Vec3 := ⟨0, 1, 0⟩

/-- cgmath `Vector3::unit_z()`. -/
def unit_z : Vec3 := ⟨0, 0, 1⟩

/-- cgmath `v * s` (component-wise scalar multiplication). -/
def smul (v : Vec3) (s : ℝ) : Vec3 := ⟨v.x * s, v.y * s, v.z * s⟩

/-- cgmath `Vector3::dot`. -/
def dot (a b : Vec3) : ℝ := a.x * b.x + a.y * b.y + a.z * b.z

/-- cgmath `Vector3::cross`. -/
def cross (a b : Vec3) : Vec3 :=
  ⟨a.y * b.z - a.z * b.y, a.z * b.x - a.x * b.z, a.x * b.y - a.y * b.x⟩

/-- cgmath `Vector3::magnitude` (`sqrt` of `dot self self`). -/
def magnitude (v : Vec3) : ℝ := Real.sqrt (v.dot v)

/-- cgmath `Vector3::normalize` (`self * (1 / self.magnitude())`). -/
def normalize (v : Vec3) : Vec3 := v.smul (1 / v.magnitude)

end Vec3

/-- cgmath `Quaternion<f32>`: scalar part `s` and vector part `(x, y, z)`. -/
@[ext]
structure Quat where
  s : ℝ
  x : ℝ
  y : ℝ
  z : ℝ

namespace Quat

/-- cgmath `Quaternion::mul` (Hamilton product), translated term by term. -/
def mul (a b : Quat) : Quat :=
  ⟨a.s * b.s - a.x * b.x - a.y * b.y - a.z * b.z,
   a.s * b.x + a.x * b.s + a.y * b.z - a.z * b.y,
   a.s * b.y + a.y * b.s + a.z * b.x - a.x * b.z,
   a.s * b.z + a.z * b.s + a.x * b.y - a.y * b.x⟩

/-- cgmath `Quaternion::conjugate`. -/
def conjugate (q : Quat) : Quat := ⟨q.s, -q.x, -q.y, -q.z⟩

/-- cgmath `impl Mul<Vector3> for Quaternion`:
`tmp = self.v.cross(vec) + vec * self.s; (self.v.cross(tmp) * 2) + vec`. -/
def rotate (q : Quat) (v : Vec3) : Vec3 :=
  let qv : Vec3 := ⟨q.x, q.y, q.z⟩
  let tmp := qv.cross v + v.smul q.s
  (qv.cross tmp).smul 2 + v

/-- cgmath `Quaternion::from_angle_y` (axis-angle with axis `unit_y`). -/
def from_angle_y (θ : ℝ) : Quat := ⟨Real.cos (θ / 2), 0, Real.sin (θ / 2), 0⟩

/-- cgmath `Quaternion::from_angle_x` (axis-angle with axis `unit_x`). -/
def from_angle_x (θ : ℝ) : Quat := ⟨Real.cos (θ / 2), Real.sin (θ / 2), 0, 0⟩

end Quat

/-! ### cgmath 4×4 matrices -/

/-- `Matrix4<f32>` as a Mathlib 4×4 real matrix (row index first). -/
abbrev Mat4 := Matrix (Fin 4) (Fin 4) ℝ

/-- cgmath `Matrix4::new`, whose sixteen arguments are given in column-major
order (`c0r0, c0r1, …, c3r3`). -/
def Matrix4.new (c0r0 c0r1 c0r2 c0r3 c1r0 c1r1 c1r2 c1r3
    c2r0 c2r1 c2r2 c2r3 c3r0 c3r1 c3r2 c3r3 : ℝ) : Mat4 :=
  Matrix.of ![![c0r0, c1r0, c2r0, c3r0],
              ![c0r1, c1r1, c2r1, c3r1],
              ![c0r2, c1r2, c2r2, c3r2],
              ![c0r3, c1r3, c2r3, c3r3]]

/-- cgmath `Matrix4::from_translation`. -/
def Matrix4.from_translation (v : Vec3) : Mat4 :=
  Matrix4.new 1 0 0 0  0 1 0 0  0 0 1 0  v.x v.y v.z 1

/-- cgmath `impl From<Quaternion> for Matrix4` (rotation matrix of a unit
quaternion), translated variable by variable. -/
def Matrix4.from_quat (q : Quat) : Mat4 :=
  let x2 := q.x + q.x
  let y2 := q.y + q.y
  let z2 := q.z + q.z
  let xx2 := x2 * q.x
  let xy2 := x2 * q.y
  let xz2 := x2 * q.z
  let yy2 := y2 * q.y
  let yz2 := y2 * q.z
  let zz2 := z2 * q.z
  let sy2 := y2 * q.s
  let sz2 := z2 * q.s
  let sx2 := x2 * q.s
  Matrix4.new
    (1 - yy2 - zz2) (xy2 + sz2) (xz2 - sy2) 0
    (xy2 - sz2) (1 - xx2 - zz2) (yz2 + sx2) 0
    (xz2 + sy2) (yz2 - sx2) (1 - xx2 - yy2) 0
    0 0 0 1

/-- Degrees to radians (cgmath `Deg` → `Rad` conversion used by `perspective`). -/
def degToRad (d : ℝ) : ℝ := d * (Real.pi / 180)

/-- cgmath `perspective(Deg(fovy), aspect, near, far)`:
`f = cot(fovy/2)` with `fovy` converted to radians. -/
def perspective (fovy aspect znear zfar : ℝ) : Mat4 :=
  let f := Real.cos (degToRad fovy / 2) / Real.sin (degToRad fovy / 2)
  Matrix4.new
    (f / aspect) 0 0 0
    0 f 0 0
    0 0 ((zfar + znear) / (znear - zfar)) (-1)
    0 0 (2 * zfar * znear / (znear - zfar)) 0

/-- `OPENGL_TO_WGPU_MATRIX` from src/camera.rs, with the source's sixteen
literals in the same (column-major) order. -/
def OPENGL_TO_WGPU_MATRIX : Mat4 :=
  Matrix4.new
    1 0 0 0
    0 1 0 0
    0 0 0.5 0.5
    0 0 0 1

/-! ### Camera (src/camera.rs) -/

/-- `Camera` from src/camera.rs. -/
structure Camera where
  eye : Vec3
  rotation : Quat
  aspect : ℝ
  fovy : ℝ
  znear : ℝ
  zfar : ℝ

namespace Camera

/-- `Camera::new` from src/camera.rs. -/
def new (aspect fovy znear zfar : ℝ) : Camera :=
  { eye := ⟨0, 1, 2⟩
    rotation := Quat.from_angle_y 0
    aspect := aspect, fovy := fovy, znear := znear, zfar := zfar }

/-- `Camera::update_aspect` from src/camera.rs. -/
def update_aspect (c : Camera) (aspect : ℝ) : Camera := { c with aspect := aspect }

/-- `Camera::build_view_projection_matrix` from src/camera.rs:
`view = Matrix4::from(rotation) * Matrix4::from_translation(-eye)`,
`proj = perspective(Deg(fovy), aspect, znear, zfar)`,
returns `OPENGL_TO_WGPU_MATRIX * proj * view`. -/
def build_view_projection_matrix (c : Camera) : Mat4 :=
  let view := Matrix4.from_quat c.rotation * Matrix4.from_translation (-c.eye)
  let proj := perspective c.fovy c.aspect c.znear c.zfar
  OPENGL_TO_WGPU_MATRIX * proj * view

end Camera

/-! ### Camera controller (src/camera.rs) -/

/-- The subset of winit key codes matched by `CameraController::handle_event`. -/
inductive KeyCode
  | KeyW | KeyA | KeyS | KeyD
  | ArrowUp | ArrowDown | ArrowLeft | ArrowRight
  | Space | ShiftLeft
  | OtherKey

/-- winit `PhysicalSize<u32>`. -/
structure PhysicalSize where
  width : Nat
  height : Nat

/-- The window events consumed by `CameraController::handle_event`:
keyboard input with a physical key code, and absolute cursor position. -/
inductive WindowEvent
  | KeyboardInput (keycode : KeyCode) (pressed : Bool)
  | CursorMoved (x : ℝ) (y : ℝ)
  | OtherEvent

/-- Rust `f32::clamp(lo, hi)`. -/
def rustClamp (v lo hi : ℝ) : ℝ := if v < lo then lo else if v > hi then hi else v

/-- `CameraController` from src/camera.rs. -/
structure CameraController where
  speed : ℝ
  yaw : ℝ
  pitch : ℝ
  is_forward_pressed : Bool
  is_backward_pressed : Bool
  is_left_pressed : Bool
  is_right_pressed : Bool
  is_up_pressed : Bool
  is_down_pressed : Bool

namespace CameraController

/-- `CameraController::new` from src/camera.rs. -/
def new (speed : ℝ) : CameraController :=
  { speed := speed
    yaw := 0
    pitch := 0
    is_forward_pressed := false
    is_backward_pressed := false
    is_left_pressed := false
    is_right_pressed := false
    is_up_pressed := false
    is_down_pressed := false }

/-- `CameraController::handle_event` from src/camera.rs; returns the updated
controller and the bool the source returns (whether the event was consumed). -/
def handle_event (c : CameraController) (event : WindowEvent) (size : PhysicalSize) :
    CameraController × Bool :=
  match event with
  | .KeyboardInput keycode pressed =>
    match keycode with
    | .KeyW | .ArrowUp => ({ c with is_forward_pressed := pressed }, true)
    | .KeyA | .ArrowLeft => ({ c with is_left_pressed := pressed }, true)
    | .KeyS | .ArrowDown => ({ c with is_backward_pressed := pressed }, true)
    | .KeyD | .ArrowRight => ({ c with is_right_pressed := pressed }, true)
    | .Space => ({ c with is_up_pressed := pressed }, true)
    | .ShiftLeft => ({ c with is_down_pressed := pressed }, true)
    | .OtherKey => (c, false)
  | .CursorMoved px py =>
    let deltaX := px - (size.width : ℝ) / 2
    let deltaY := py - (size.height : ℝ) / 2
    let sensitivity : ℝ := 0.001
    let yaw := c.yaw + deltaX * sensitivity
    let pitch := c.pitch + deltaY * sensitivity
    let pitch_limit := Real.pi / 2 * (5 / 6)
    ({ c with yaw := yaw, pitch := rustClamp pitch (-pitch_limit) pitch_limit }, true)
  | .OtherEvent => (c, false)

/-- The camera-forward vector computed at the top of `update_camera`
(src/camera.rs line 152): `camera.rotation.conjugate() * Vector3::unit_z()`. -/
def forwardRaw (camera : Camera) : Vec3 :=
  (camera.rotation.conjugate).rotate Vec3.unit_z

/-- The horizontal projection of camera-forward (src/camera.rs line 153),
before its renormalization. -/
def horizForward (camera : Camera) : Vec3 :=
  ⟨(forwardRaw camera).x, 0, (forwardRaw camera).z⟩

/-- The raw movement vector accumulated by `CameraController::update_camera`
(src/camera.rs lines 151–175), before the nonzero-magnitude guard. -/
def movementVector (c : CameraController) (camera : Camera) : Vec3 :=
  let up := Vec3.unit_y
  let forward := (horizForward camera).normalize
  let right := (forward.cross up).normalize
  let movement := Vec3.zero
  let movement := if c.is_forward_pressed then movement - forward else movement
  let movement := if c.is_backward_pressed then movement + forward else movement
  let movement := if c.is_left_pressed then movement + right else movement
  let movement := if c.is_right_pressed then movement - right else movement
  let movement := if c.is_up_pressed then movement + up else movement
  let movement := if c.is_down_pressed then movement - up else movement
  movement

/-- `CameraController::update_camera` from src/camera.rs. -/
def update_camera (c : CameraController) (camera : Camera) (delta_time : ℝ) : Camera :=
  let movement := c.movementVector camera
  let camera :=
    if movement.magnitude > 0 then
      { camera with eye := camera.eye + (movement.normalize.smul c.speed).smul delta_time }
    else camera
  let yaw_rot := Quat.from_angle_y c.yaw
  let pitch_rot := Quat.from_angle_x c.pitch
  { camera with rotation := pitch_rot.mul yaw_rot }

end CameraController

/-! ### Mesh store (src/model.rs) -/

/-- The raw mesh data returned by the external geometry loader (tobj):
flat position/normal arrays and a `u32` index array. -/
structure LoadedMesh where
  positions : List ℝ
  normals : List ℝ
  indices : List Nat

/-- `ModelVertex` from src/model.rs. -/
structure ModelVertex where
  position : Vec3
  color : Vec3
  normal : Vec3

/-- `Model` from src/model.rs; `vertexData` and `indexData` are the contents
written once into the GPU vertex/index buffers at load time. -/
structure Model where
  name : String
  vertexData : List ModelVertex
  indexData : List Nat
  num_indices : Nat

/-- The vertex array built by `Model::load` (src/model.rs lines 67–95): one
vertex per position triple; the normal is the matching normal triple, or
`[0, 0, 0]` when the mesh has no normals. -/
def Model.loadVertices (mesh : LoadedMesh) : List ModelVertex :=
  (List.range (mesh.positions.length / 3)).map (fun i =>
    if mesh.normals.isEmpty then
      { position := ⟨mesh.positions.getD (i * 3) 0, mesh.positions.getD (i * 3 + 1) 0,
          mesh.positions.getD (i * 3 + 2) 0⟩
        color := ⟨0, 0, 0⟩
        normal := ⟨0, 0, 0⟩ }
    else
      { position := ⟨mesh.positions.getD (i * 3) 0, mesh.positions.getD (i * 3 + 1) 0,
          mesh.positions.getD (i * 3 + 2) 0⟩
        color := ⟨0, 0, 0⟩
        normal := ⟨mesh.normals.getD (i * 3) 0, mesh.normals.getD (i * 3 + 1) 0,
          mesh.normals.getD (i * 3 + 2) 0⟩ })

/-- `Model::load` from src/model.rs, applied to the already-parsed mesh (file
reading and obj parsing are the external collaborator); `num_indices` is
`indices.len() as u32`, a `usize → u32` cast. -/
def Model.load (file_name : String) (mesh : LoadedMesh) : Model :=
  { name := file_name
    vertexData := Model.loadVertices mesh
    indexData := mesh.indices
    num_indices := mesh.indices.length % 2 ^ 32 }

/-! ### Render state and resize (src/main.rs) -/

/-- The width/height part of `wgpu::SurfaceConfiguration`. -/
structure SurfaceConfig where
  width : Nat
  height : Nat

/-- A g-buffer texture with its allocation size. -/
structure GTexture where
  width : Nat
  height : Nat
  isDepth : Bool

/-- Modelled from the spec: `Texture::create_gbuf_texture` lives in
src/texture.rs, which is not among the provided sources.  Per the spec
(§3 Surface Target Set), each offscreen texture is "sized to the current
viewport", i.e. allocated at the surface configuration's width × height. -/
def Texture.create_gbuf_texture (config : SurfaceConfig) (isDepth : Bool) : GTexture :=
  { width := config.width, height := config.height, isDepth := isDepth }

/-- The fields of `State` (src/main.rs) that the embedded operations touch. -/
structure RState where
  size : PhysicalSize
  config : SurfaceConfig
  camera : Camera
  camera_uniform : Mat4
  depth_texture : GTexture
  normal_texture : GTexture
  color_texture : GTexture
  camera_controller : CameraController

namespace RState

/-- `State::resize` from src/main.rs lines 361–376: guarded on both
dimensions being nonzero; updates the stored size, the surface
configuration, the camera aspect, the camera uniform, and recreates the
three g-buffer textures from the new configuration. -/
def resize (s : RState) (new_size : PhysicalSize) : RState :=
  if 0 < new_size.width ∧ 0 < new_size.height then
    let config : SurfaceConfig := { width := new_size.width, height := new_size.height }
    let camera := s.camera.update_aspect ((new_size.width : ℝ) / (new_size.height : ℝ))
    { s with
      size := new_size
      config := config
      camera := camera
      camera_uniform := camera.build_view_projection_matrix
      depth_texture := Texture.create_gbuf_texture config true
      normal_texture := Texture.create_gbuf_texture config false
      color_texture := Texture.create_gbuf_texture config false }
  else s

/-- `State::update` from src/main.rs lines 378–382. -/
def update (s : RState) (delta_time : ℝ) : RState :=
  let camera := s.camera_controller.update_camera s.camera delta_time
  { s with camera := camera, camera_uniform := camera.build_view_projection_matrix }

end RState

/-! ### Render trace (src/main.rs, `State::render`) -/

/-- The textures a render pass can attach or a pipeline can draw into. -/
inductive RenderTarget
  | surfaceFrame
  | depthTex
  | normalTex
  | colorTex
deriving DecidableEq

/-- The two render pipelines built in `State::new`. -/
inductive PipelineId
  | gbuf
  | lighting
deriving DecidableEq

/-- The GPU commands `State::render` records, in order. -/
inductive RenderCmd
  | beginRenderPass (colorAttachments : List RenderTarget) (depthAttachment : Option RenderTarget)
  | setPipeline (p : PipelineId)
  | setBindGroup (index : Nat)
  | drawModel
  | endRenderPass
  | submit
  | present
deriving DecidableEq

/-- Whether a command opens a render pass. -/
def RenderCmd.isBeginPass : RenderCmd → Bool
  | .beginRenderPass _ _ => true
  | _ => false

/-- `State::render` from src/main.rs lines 384–434, as the sequence of GPU
commands it records on the success path: one render pass whose color
attachment is the acquired surface frame and whose depth attachment is the
depth texture, the g-buffer pipeline, the camera bind group, one model
draw, then submit and present. -/
def RState.renderCommands (_s : RState) : List RenderCmd :=
  [ .beginRenderPass [.surfaceFrame] (some .depthTex),
    .setPipeline .gbuf,
    .setBindGroup 0,
    .drawModel,
    .endRenderPass,
    .submit,
    .present ]

/-! ### Frame driver (src/main.rs, `App::window_event`) -/

/-- `wgpu::SurfaceError`. -/
inductive SurfaceErrorE
  | Lost
  | Outdated
  | Timeout
  | OutOfMemory
  | Other
deriving DecidableEq

/-- The driver's lifecycle states per the spec's Frame Driver state machine. -/
inductive DriverMode
  | Uninitialized
  | Running
  | Exiting
deriving DecidableEq

/-- The application driver: the owned render state plus the lifecycle mode
(`event_loop.exit()` moves the mode to `Exiting`). -/
structure AppDriver where
  st : RState
  mode : DriverMode

/-- Externally observable actions of one `RedrawRequested` dispatch. -/
inductive DriverAction
  | renderOnce
  | logWarning
  | logError
deriving DecidableEq

/-- The `RedrawRequested` arm of `App::window_event` (src/main.rs lines
470–504) after `state.update`: `state.render()` is called exactly once and
its result matched: `Ok` does nothing further; `Lost`/`Outdated` call
`state.resize(state.size)`; `OutOfMemory`/`Other` log an error and exit the
event loop; `Timeout` logs a warning. -/
def AppDriver.handleRenderResult (a : AppDriver) (outcome : Option SurfaceErrorE) :
    AppDriver × List DriverAction :=
  match outcome with
  | none => (a, [.renderOnce])
  | some .Lost => ({ a with st := a.st.resize a.st.size }, [.renderOnce])
  | some .Outdated => ({ a with st := a.st.resize a.st.size }, [.renderOnce])
  | some .OutOfMemory => ({ a with mode := .Exiting }, [.renderOnce, .logError])
  | some .Other => ({ a with mode := .Exiting }, [.renderOnce, .logError])
  | some .Timeout => (a, [.renderOnce, .logWarning])

/-! ### Spec-side definitions for the refinement claim about the camera matrix -/

/-- Modelled from the spec: the view-projection the spec's words describe,
composing `clip_space_correction * proj * view` with
`view = Rotation(orientation⁻¹) * Translation(-eye)` — the conjugate of the
stored quaternion applied for the view. -/
def specC2ViewProjection (c : Camera) : Mat4 :=
  OPENGL_TO_WGPU_MATRIX * perspective c.fovy c.aspect c.znear c.zfar *
    (Matrix4.from_quat c.rotation.conjugate * Matrix4.from_translation (-c.eye))

/-- Modelled from the spec: the clip-space correction "remaps the
projection's depth output from the [-1,1] convention to the [0,1]
convention" — for clip-space inputs with positive `w` and normalized depth
in `[-1,1]`, the image's normalized depth lands in `[0,1]`, with the
endpoints `-1` and `1` sent to `0` and `1`. -/
def remapsDepthToZeroOne (M : Mat4) : Prop :=
  ∀ v : Fin 4 → ℝ, 0 < v 3 → -1 ≤ v 2 / v 3 → v 2 / v 3 ≤ 1 →
    (0 ≤ M.mulVec v 2 / M.mulVec v 3 ∧ M.mulVec v 2 / M.mulVec v 3 ≤ 1) ∧
    (v 2 / v 3 = -1 → M.mulVec v 2 / M.mulVec v 3 = 0) ∧
    (v 2 / v 3 = 1 → M.mulVec v 2 / M.mulVec v 3 = 1)

/-! ### Concrete inputs used by witness and counterexample theorems -/

/-- A concrete render state with the startup values of `State::new` at an
800×600 surface. -/
def sampleState : RState :=
  { size := ⟨800, 600⟩
    config := ⟨800, 600⟩
    camera := Camera.new (800 / 600) 45 0.1 100
    camera_uniform := (Camera.new (800 / 600) 45 0.1 100).build_view_projection_matrix
    depth_texture := Texture.create_gbuf_texture ⟨800, 600⟩ true
    normal_texture := Texture.create_gbuf_texture ⟨800, 600⟩ false
    color_texture := Texture.create_gbuf_texture ⟨800, 600⟩ false
    camera_controller := CameraController.new 5 }

/-- A concrete loaded mesh: one triangle, no normals. -/
def sampleMesh : LoadedMesh :=
  { positions := [0, 0, 0, 1, 0, 0, 0, 1, 0]
    normals := []
    indices := [0, 1, 2] }

/-- A controller with the forward and right keys held (diagonal movement). -/
def forwardRightController : CameraController :=
  { CameraController.new 5 with is_forward_pressed := true, is_right_pressed := true }

/-- The startup camera of `State::new` (identity rotation). -/
def identityCamera : Camera := Camera.new (800 / 600) 45 0.1 100

/-- The startup camera with its rotation rebuilt, as `update_camera` leaves
it, from the fresh controller's zero yaw and pitch. -/
def levelCamera : Camera :=
  { identityCamera with
      rotation := (Quat.from_angle_x (CameraController.new 5).pitch).mul
        (Quat.from_angle_y (CameraController.new 5).yaw) }

/-- A camera rotated 90° about the y axis, at the origin, with unit near
plane and far plane 2. -/
def yaw90Camera : Camera :=
  { eye := ⟨0, 0, 0⟩
    rotation := ⟨Real.sqrt 2 / 2, 0, Real.sqrt 2 / 2, 0⟩
    aspect := 1, fovy := 45, znear := 1, zfar := 2 }

/-- Folding a stream of window events through `handle_event`, as the winit
event loop delivers them. -/
def processEvents (c : CameraController) (events : List (WindowEvent × PhysicalSize)) :
    CameraController :=
  events.foldl (fun st e => (st.handle_event e.1 e.2).1) c

/-! ## Basic lemmas about the embedded cgmath operations -/

@[simp] theorem Vec3.add_def (a b : Vec3) : a + b = ⟨a.x + b.x, a.y + b.y, a.z + b.z⟩ := rfl

@[simp] theorem Vec3.sub_def (a b : Vec3) : a - b = ⟨a.x - b.x, a.y - b.y, a.z - b.z⟩ := rfl

@[simp] theorem Vec3.neg_def (a : Vec3) : -a = ⟨-a.x, -a.y, -a.z⟩ := rfl

theorem Vec3.magnitude_nonneg (v : Vec3) : 0 ≤ v.magnitude := Real.sqrt_nonneg _

theorem Vec3.dot_self_nonneg (v : Vec3) : 0 ≤ v.dot v := by
  unfold Vec3.dot
  nlinarith [sq_nonneg v.x, sq_nonneg v.y, sq_nonneg v.z]

theorem Vec3.magnitude_pos (v : Vec3) (h : v ≠ ⟨0, 0, 0⟩) : 0 < v.magnitude := by
  have hd : 0 < v.dot v := by
    rcases lt_or_eq_of_le (Vec3.dot_self_nonneg v) with hlt | heq
    · exact hlt
    · exfalso
      apply h
      have hx : v.x ^ 2 + v.y ^ 2 + v.z ^ 2 = 0 := by unfold Vec3.dot at heq; nlinarith
      have h3 : v.x = 0 ∧ v.y = 0 ∧ v.z = 0 := by
        refine ⟨?_, ?_, ?_⟩ <;> nlinarith [sq_nonneg v.x, sq_nonneg v.y, sq_nonneg v.z]
      ext <;> simp [h3.1, h3.2.1, h3.2.2]
  exact Real.sqrt_pos.mpr hd

theorem Vec3.magnitude_smul (v : Vec3) (s : ℝ) :
    (v.smul s).magnitude = |s| * v.magnitude := by
  unfold Vec3.magnitude Vec3.smul Vec3.dot
  simp only
  rw [show v.x * s * (v.x * s) + v.y * s * (v.y * s) + v.z * s * (v.z * s)
        = s ^ 2 * (v.x * v.x + v.y * v.y + v.z * v.z) by ring]
  rw [Real.sqrt_mul (sq_nonneg s), Real.sqrt_sq_eq_abs]

theorem Vec3.magnitude_normalize (v : Vec3) (h : v ≠ ⟨0, 0, 0⟩) :
    v.normalize.magnitude = 1 := by
  have hpos := Vec3.magnitude_pos v h
  unfold Vec3.normalize
  rw [Vec3.magnitude_smul, abs_of_nonneg (by positivity : (0:ℝ) ≤ 1 / v.magnitude)]
  field_simp

theorem rustClamp_mem (v lo hi : ℝ) (h : lo ≤ hi) :
    lo ≤ rustClamp v lo hi ∧ rustClamp v lo hi ≤ hi := by
  unfold rustClamp
  split_ifs with h1 h2
  · exact ⟨le_refl _, h⟩
  · exact ⟨h, le_refl _⟩
  · exact ⟨not_lt.mp h1, not_lt.mp h2⟩

/-! ## Claim theorems -/

/-- C1: the claim says every frame while Running runs two render passes —
a Geometry Pass into the Surface Target Set, then a Lighting Pass sampling
it into the presentable frame.  The code's `State::render` records exactly
one render pass, whose sole color attachment is the presentable frame
itself; it never sets the lighting pipeline, and no pass ever attaches the
normal or color textures. -/
theorem render_records_single_pass (s : RState) :
    (s.renderCommands.filter RenderCmd.isBeginPass).length = 1 ∧
    s.renderCommands.filter RenderCmd.isBeginPass =
      [.beginRenderPass [.surfaceFrame] (some .depthTex)] ∧
    RenderCmd.setPipeline .lighting ∉ s.renderCommands ∧
    ∀ cols depth, RenderCmd.beginRenderPass cols depth ∈ s.renderCommands →
      RenderTarget.normalTex ∉ cols ∧ RenderTarget.colorTex ∉ cols := by
  refine ⟨rfl, rfl, by simp [RState.renderCommands], ?_⟩
  intro cols depth h
  simp [RState.renderCommands] at h
  rcases h with ⟨rfl, rfl⟩
  constructor <;> simp

/-- C4: after acquiring the presentable frame fails, a Lost or Outdated
surface error reconfigures via `resize` at the last known size and leaves
the driver mode unchanged; a Timeout changes no state; OutOfMemory and
Other exit the Running state; and every error path issues exactly one
render (no retry). -/
theorem surface_error_policy (a : AppDriver) :
    ((a.handleRenderResult (some .Lost)).1.st = a.st.resize a.st.size ∧
      (a.handleRenderResult (some .Lost)).1.mode = a.mode) ∧
    ((a.handleRenderResult (some .Outdated)).1.st = a.st.resize a.st.size ∧
      (a.handleRenderResult (some .Outdated)).1.mode = a.mode) ∧
    (a.handleRenderResult (some .Timeout)).1 = a ∧
    (a.handleRenderResult (some .OutOfMemory)).1.mode = .Exiting ∧
    (a.handleRenderResult (some .Other)).1.mode = .Exiting ∧
    ∀ e : SurfaceErrorE, ((a.handleRenderResult (some e)).2.count .renderOnce = 1) := by
  refine ⟨⟨rfl, rfl⟩, ⟨rfl, rfl⟩, rfl, rfl, rfl, ?_⟩
  intro e
  cases e <;> rfl

/-- C7: a resize with positive width and height sets the camera aspect to
`w / h`, reallocates the depth, normal and color textures all at `w × h`,
and leaves the camera's eye and rotation unchanged. -/
theorem resize_nonzero_updates (s : RState) (w h : Nat) (hw : 0 < w) (hh : 0 < h) :
    (s.resize ⟨w, h⟩).camera.aspect = (w : ℝ) / (h : ℝ) ∧
    (s.resize ⟨w, h⟩).depth_texture = ⟨w, h, true⟩ ∧
    (s.resize ⟨w, h⟩).normal_texture = ⟨w, h, false⟩ ∧
    (s.resize ⟨w, h⟩).color_texture = ⟨w, h, false⟩ ∧
    (s.resize ⟨w, h⟩).camera.eye = s.camera.eye ∧
    (s.resize ⟨w, h⟩).camera.rotation = s.camera.rotation := by
  unfold RState.resize
  rw [if_pos ⟨hw, hh⟩]
  simp [Camera.update_aspect, Texture.create_gbuf_texture]

/-- Witness for C7 at the spec's 800×600 → 400×300 example. -/
theorem resize_nonzero_updates_witness :
    (sampleState.resize ⟨400, 300⟩).camera.aspect = ((400 : Nat) : ℝ) / ((300 : Nat) : ℝ) ∧
    (sampleState.resize ⟨400, 300⟩).depth_texture = ⟨400, 300, true⟩ ∧
    (sampleState.resize ⟨400, 300⟩).normal_texture = ⟨400, 300, false⟩ ∧
    (sampleState.resize ⟨400, 300⟩).color_texture = ⟨400, 300, false⟩ ∧
    (sampleState.resize ⟨400, 300⟩).camera.eye = sampleState.camera.eye ∧
    (sampleState.resize ⟨400, 300⟩).camera.rotation = sampleState.camera.rotation :=
  resize_nonzero_updates sampleState 400 300 (by norm_num) (by norm_num)

/-- C8: a resize request with a zero width or height is a no-op: the state,
including the prior textures, surface configuration, stored size and camera
aspect, is unchanged. -/
theorem resize_zero_is_noop (s : RState) (sz : PhysicalSize)
    (h : sz.width = 0 ∨ sz.height = 0) : s.resize sz = s := by
  unfold RState.resize
  rw [if_neg]
  rcases h with h | h <;> simp [h]

/-- Witness for C8: a 0×600 (minimized-style) resize request on the sample
state changes nothing. -/
theorem resize_zero_is_noop_witness :
    ((⟨0, 600⟩ : PhysicalSize).width = 0 ∨ (⟨0, 600⟩ : PhysicalSize).height = 0) ∧
    sampleState.resize ⟨0, 600⟩ = sampleState :=
  ⟨Or.inl rfl, resize_zero_is_noop sampleState ⟨0, 600⟩ (Or.inl rfl)⟩

/-- C9: for a successfully loaded mesh, `num_indices` equals the element
count of the index buffer contents, and when the source mesh has no
normals every vertex gets the zero normal instead of failing. -/
theorem model_load_counts_and_normals (file_name : String) (mesh : LoadedMesh)
    (hlen : mesh.indices.length < 2 ^ 32) :
    (Model.load file_name mesh).num_indices = (Model.load file_name mesh).indexData.length ∧
    (mesh.normals = [] →
      ∀ v ∈ (Model.load file_name mesh).vertexData, v.normal = ⟨0, 0, 0⟩) := by
  constructor
  · simp only [Model.load]
    omega
  · intro hn v hv
    simp [Model.load, Model.loadVertices, hn] at hv
    obtain ⟨i, hi, rfl⟩ := hv
    rfl

/-- Witness for C9 on the concrete one-triangle mesh without normals. -/
theorem model_load_counts_and_normals_witness :
    sampleMesh.indices.length < 2 ^ 32 ∧
    ((Model.load "teapot.obj" sampleMesh).num_indices =
        (Model.load "teapot.obj" sampleMesh).indexData.length ∧
      (sampleMesh.normals = [] →
        ∀ v ∈ (Model.load "teapot.obj" sampleMesh).vertexData, v.normal = ⟨0, 0, 0⟩)) :=
  ⟨by norm_num [sampleMesh], model_load_counts_and_normals "teapot.obj" sampleMesh
    (by norm_num [sampleMesh])⟩

/-- One `handle_event` call keeps the pitch inside `[-5π/12, 5π/12]` when it
was inside before: key events do not touch the pitch, and pointer motion
clamps it back into the interval. -/
theorem handle_event_pitch_le (c : CameraController) (e : WindowEvent) (sz : PhysicalSize)
    (h : |c.pitch| ≤ 5 * Real.pi / 12) :
    |(c.handle_event e sz).1.pitch| ≤ 5 * Real.pi / 12 := by
  cases e with
  | KeyboardInput k pressed => cases k <;> simpa [CameraController.handle_event] using h
  | CursorMoved px py =>
      have hle : -(Real.pi / 2 * (5 / 6)) ≤ Real.pi / 2 * (5 / 6) := by
        have := Real.pi_pos
        linarith
      have hb := rustClamp_mem (c.pitch + (py - (sz.height : ℝ) / 2) * 0.001)
        (-(Real.pi / 2 * (5 / 6))) (Real.pi / 2 * (5 / 6)) hle
      simp only [CameraController.handle_event]
      rw [abs_le]
      exact ⟨by linarith [hb.1], by linarith [hb.2]⟩
  | OtherEvent => simpa [CameraController.handle_event] using h

/-- C3: starting from a fresh controller, after every sequence of input
events the pitch lies in `[-5π/12, 5π/12]`; and a pointer-motion event
accumulates the center offset scaled by the fixed 0.001 sensitivity into
yaw and pitch and then clamps the pitch to that interval. -/
theorem pitch_always_clamped :
    (∀ (speed : ℝ) (events : List (WindowEvent × PhysicalSize)),
      |(processEvents (CameraController.new speed) events).pitch| ≤ 5 * Real.pi / 12) ∧
    (∀ (c : CameraController) (px py : ℝ) (sz : PhysicalSize),
      (c.handle_event (.CursorMoved px py) sz).1.yaw =
        c.yaw + (px - (sz.width : ℝ) / 2) * 0.001 ∧
      (c.handle_event (.CursorMoved px py) sz).1.pitch =
        rustClamp (c.pitch + (py - (sz.height : ℝ) / 2) * 0.001)
          (-(Real.pi / 2 * (5 / 6))) (Real.pi / 2 * (5 / 6))) := by
  constructor
  · intro speed events
    have key : ∀ (evs : List (WindowEvent × PhysicalSize)) (c : CameraController),
        |c.pitch| ≤ 5 * Real.pi / 12 →
        |(processEvents c evs).pitch| ≤ 5 * Real.pi / 12 := by
      intro evs
      induction evs with
      | nil => intro c h; exact h
      | cons e rest ih =>
          intro c h
          exact ih _ (handle_event_pitch_le c e.1 e.2 h)
    apply key
    have hpi := Real.pi_pos
    simp only [CameraController.new, abs_zero]
    positivity
  · intro c px py sz
    exact ⟨rfl, rfl⟩

/-- The eye position written by `update_camera`: moved by the normalized
movement scaled by `speed * dt` when the raw movement vector has positive
magnitude, untouched otherwise. -/
theorem update_camera_eye (c : CameraController) (camera : Camera) (dt : ℝ) :
    (c.update_camera camera dt).eye =
      if (c.movementVector camera).magnitude > 0
      then camera.eye + (((c.movementVector camera).normalize.smul c.speed).smul dt)
      else camera.eye := by
  by_cases hm : (c.movementVector camera).magnitude > 0 <;>
    simp [CameraController.update_camera, hm]

/-- C5: whenever each opposite key pair (forward/backward, left/right,
up/down) has equal flags — in particular with no keys pressed, or with
opposite keys pressed simultaneously — `update_camera` leaves the eye
unchanged for every `dt ≥ 0`. -/
theorem opposite_keys_leave_eye (c : CameraController) (camera : Camera) (dt : ℝ)
    (hdt : 0 ≤ dt)
    (hfb : c.is_forward_pressed = c.is_backward_pressed)
    (hlr : c.is_left_pressed = c.is_right_pressed)
    (hud : c.is_up_pressed = c.is_down_pressed) :
    (c.update_camera camera dt).eye = camera.eye := by
  have hmv : c.movementVector camera = ⟨0, 0, 0⟩ := by
    unfold CameraController.movementVector
    rw [hfb, hlr, hud]
    cases c.is_backward_pressed <;> cases c.is_right_pressed <;>
      cases c.is_down_pressed <;>
        (refine Vec3.ext ?_ ?_ ?_ <;> simp [Vec3.zero])
  rw [update_camera_eye, hmv]
  have hz : (Vec3.mk 0 0 0).magnitude = 0 := by
    simp [Vec3.magnitude, Vec3.dot]
  rw [hz]
  simp

/-- Witness for C5: a fresh controller (no keys pressed) moving for one
second leaves the sample camera's eye where it was. -/
theorem opposite_keys_leave_eye_witness :
    (0 : ℝ) ≤ 1 ∧
    ((CameraController.new 5).update_camera identityCamera 1).eye = identityCamera.eye :=
  ⟨by norm_num, opposite_keys_leave_eye (CameraController.new 5) identityCamera 1
    (by norm_num) rfl rfl rfl⟩

/-- C6: for a nonnegative `dt` and speed, whenever the raw movement vector
accumulated by `update_camera` is nonzero, the eye's displacement has
magnitude exactly `speed * dt` — the movement vector is normalized before
scaling, so diagonal movement is as fast as single-axis movement. -/
theorem movement_displacement_magnitude (c : CameraController) (camera : Camera) (dt : ℝ)
    (hdt : 0 ≤ dt) (hsp : 0 ≤ c.speed)
    (hmv : c.movementVector camera ≠ ⟨0, 0, 0⟩) :
    ((c.update_camera camera dt).eye - camera.eye).magnitude = c.speed * dt := by
  have hpos := Vec3.magnitude_pos _ hmv
  rw [update_camera_eye, if_pos hpos]
  have hdiff : camera.eye + ((c.movementVector camera).normalize.smul c.speed).smul dt -
      camera.eye = ((c.movementVector camera).normalize.smul c.speed).smul dt := by
    refine Vec3.ext ?_ ?_ ?_ <;> simp [Vec3.smul] <;> ring
  rw [hdiff, Vec3.magnitude_smul, Vec3.magnitude_smul,
    Vec3.magnitude_normalize _ hmv, abs_of_nonneg hdt, abs_of_nonneg hsp]
  ring

/-- Witness for C6: forward+right diagonal movement from the startup camera
for one second at speed 5 displaces the eye by exactly 5. -/
theorem movement_displacement_magnitude_witness :
    (0 : ℝ) ≤ 1 ∧ (0 : ℝ) ≤ forwardRightController.speed ∧
    forwardRightController.movementVector identityCamera ≠ ⟨0, 0, 0⟩ ∧
    ((forwardRightController.update_camera identityCamera 1).eye -
        identityCamera.eye).magnitude = forwardRightController.speed * 1 := by
  have hforward : (CameraController.horizForward identityCamera).normalize = ⟨0, 0, 1⟩ := by
    have h1 : CameraController.horizForward identityCamera = ⟨0, 0, 1⟩ := by
      simp [CameraController.horizForward, CameraController.forwardRaw, identityCamera,
        Camera.new, Quat.from_angle_y, Quat.conjugate, Quat.rotate, Vec3.unit_z,
        Vec3.cross, Vec3.smul]
    rw [h1]
    simp [Vec3.normalize, Vec3.magnitude, Vec3.dot, Vec3.smul]
  have hright : ((Vec3.mk 0 0 1).cross Vec3.unit_y).normalize = ⟨-1, 0, 0⟩ := by
    have h1 : (Vec3.mk 0 0 1).cross Vec3.unit_y = ⟨-1, 0, 0⟩ := by
      simp [Vec3.cross, Vec3.unit_y]
    rw [h1]
    simp [Vec3.normalize, Vec3.magnitude, Vec3.dot, Vec3.smul]
  have hmv : forwardRightController.movementVector identityCamera = ⟨1, 0, -1⟩ := by
    simp only [CameraController.movementVector, hforward, hright, forwardRightController,
      CameraController.new]
    refine Vec3.ext ?_ ?_ ?_ <;> simp [Vec3.zero] <;> norm_num
  have hne : forwardRightController.movementVector identityCamera ≠ ⟨0, 0, 0⟩ := by
    rw [hmv]
    intro h
    have := congrArg Vec3.x h
    norm_num at this
  have hsp : (0 : ℝ) ≤ forwardRightController.speed := by
    norm_num [forwardRightController, CameraController.new]
  exact ⟨by norm_num, hsp, hne,
    movement_displacement_magnitude forwardRightController identityCamera 1
      (by norm_num) hsp hne⟩

/-- Rotating `unit_z` by the conjugate of `pitch_rot * yaw_rot` gives the
camera-forward vector `(-cos p · sin y, sin p, cos p · cos y)`. -/
theorem rotate_conj_pitch_yaw (p yw : ℝ) :
    (((Quat.from_angle_x p).mul (Quat.from_angle_y yw)).conjugate).rotate Vec3.unit_z =
      ⟨-(Real.cos p * Real.sin yw), Real.sin p, Real.cos p * Real.cos yw⟩ := by
  have hA := Real.sin_sq_add_cos_sq (p / 2)
  have hB := Real.sin_sq_add_cos_sq (yw / 2)
  have hcp : Real.cos p = Real.cos (p / 2) ^ 2 - Real.sin (p / 2) ^ 2 := by
    have h2 := Real.cos_two_mul' (p / 2)
    rw [show 2 * (p / 2) = p by ring] at h2
    exact h2
  have hsp : Real.sin p = 2 * Real.sin (p / 2) * Real.cos (p / 2) := by
    have h2 := Real.sin_two_mul (p / 2)
    rw [show 2 * (p / 2) = p by ring] at h2
    exact h2
  have hcy : Real.cos yw = Real.cos (yw / 2) ^ 2 - Real.sin (yw / 2) ^ 2 := by
    have h2 := Real.cos_two_mul' (yw / 2)
    rw [show 2 * (yw / 2) = yw by ring] at h2
    exact h2
  have hsy : Real.sin yw = 2 * Real.sin (yw / 2) * Real.cos (yw / 2) := by
    have h2 := Real.sin_two_mul (yw / 2)
    rw [show 2 * (yw / 2) = yw by ring] at h2
    exact h2
  refine Vec3.ext ?_ ?_ ?_ <;>
    simp only [Quat.mul, Quat.conjugate, Quat.from_angle_x, Quat.from_angle_y, Quat.rotate,
      Vec3.cross, Vec3.smul, Vec3.unit_z, Vec3.add_def]
  · rw [hcp, hsy]; ring
  · rw [hsp]
    linear_combination (2 * Real.sin (p / 2) * Real.cos (p / 2)) * hB
  · rw [hcp, hcy]
    linear_combination (-(Real.sin (yw / 2) ^ 2 + Real.cos (yw / 2) ^ 2)) * hA - hB

/-- C10: for a controller obeying the pitch-clamp invariant and a camera
whose rotation was (re)built by `update_camera` from the controller's yaw
and pitch, every normalization in `update_camera` acts on a nonzero
vector: the horizontal projection of camera-forward has magnitude
`cos pitch > 0`, the right vector `forward × up` is nonzero, and the
movement vector is only normalized under the positive-magnitude guard, so
no division by zero occurs. -/
theorem update_camera_no_zero_normalization (c : CameraController) (camera : Camera)
    (hpitch : |c.pitch| ≤ 5 * Real.pi / 12)
    (hrot : camera.rotation = (Quat.from_angle_x c.pitch).mul (Quat.from_angle_y c.yaw)) :
    (CameraController.horizForward camera).magnitude = Real.cos c.pitch ∧
    0 < Real.cos c.pitch ∧
    (CameraController.horizForward camera).normalize.cross Vec3.unit_y ≠ ⟨0, 0, 0⟩ ∧
    (∀ dt, ¬ 0 < (c.movementVector camera).magnitude →
      (c.update_camera camera dt).eye = camera.eye) := by
  have hpi := Real.pi_pos
  have hcos : 0 < Real.cos c.pitch := by
    apply Real.cos_pos_of_mem_Ioo
    rw [abs_le] at hpitch
    constructor
    · linarith [hpitch.1]
    · linarith [hpitch.2]
  have hfwd : CameraController.forwardRaw camera =
      ⟨-(Real.cos c.pitch * Real.sin c.yaw), Real.sin c.pitch,
        Real.cos c.pitch * Real.cos c.yaw⟩ := by
    rw [CameraController.forwardRaw, hrot, rotate_conj_pitch_yaw]
  have hhoriz : CameraController.horizForward camera =
      ⟨-(Real.cos c.pitch * Real.sin c.yaw), 0, Real.cos c.pitch * Real.cos c.yaw⟩ := by
    rw [CameraController.horizForward, hfwd]
  have hdot : (CameraController.horizForward camera).dot
      (CameraController.horizForward camera) = Real.cos c.pitch ^ 2 := by
    rw [hhoriz]
    simp only [Vec3.dot]
    linear_combination (Real.cos c.pitch ^ 2) * Real.sin_sq_add_cos_sq c.yaw
  have hmag : (CameraController.horizForward camera).magnitude = Real.cos c.pitch := by
    rw [Vec3.magnitude, hdot, Real.sqrt_sq hcos.le]
  refine ⟨hmag, hcos, ?_, ?_⟩
  · intro hcontra
    have hmne : (CameraController.horizForward camera).magnitude ≠ 0 := by
      rw [hmag]; exact ne_of_gt hcos
    have hk : (1 : ℝ) / (CameraController.horizForward camera).magnitude ≠ 0 :=
      one_div_ne_zero hmne
    simp only [Vec3.normalize, Vec3.smul, Vec3.cross, Vec3.unit_y, Vec3.mk.injEq] at hcontra
    obtain ⟨h1, -, h3⟩ := hcontra
    have hz0 : (CameraController.horizForward camera).z = 0 := by
      rcases mul_eq_zero.mp (neg_eq_zero.mp (by linarith [h1] : -((CameraController.horizForward camera).z *
        (1 / (CameraController.horizForward camera).magnitude)) = 0)) with h | h
      · exact h
      · exact absurd h hk
    have hx0 : (CameraController.horizForward camera).x = 0 := by
      rcases mul_eq_zero.mp (by linarith [h3] : (CameraController.horizForward camera).x *
        (1 / (CameraController.horizForward camera).magnitude) = 0) with h | h
      · exact h
      · exact absurd h hk
    rw [Vec3.dot, hx0, hz0] at hdot
    have hy0 : (CameraController.horizForward camera).y = 0 := by rw [hhoriz]
    rw [hy0] at hdot
    nlinarith [hdot, hcos]
  · intro dt hguard
    rw [update_camera_eye, if_neg hguard]

/-- Witness for C10 at the startup controller (zero yaw and pitch) and the
matching rebuilt camera rotation. -/
theorem update_camera_no_zero_normalization_witness :
    |(CameraController.new 5).pitch| ≤ 5 * Real.pi / 12 ∧
    ((CameraController.horizForward levelCamera).magnitude =
        Real.cos (CameraController.new 5).pitch ∧
      0 < Real.cos (CameraController.new 5).pitch ∧
      (CameraController.horizForward levelCamera).normalize.cross Vec3.unit_y ≠ ⟨0, 0, 0⟩ ∧
      (∀ dt, ¬ 0 < ((CameraController.new 5).movementVector levelCamera).magnitude →
        ((CameraController.new 5).update_camera levelCamera dt).eye = levelCamera.eye)) := by
  have hpitch : |(CameraController.new 5).pitch| ≤ 5 * Real.pi / 12 := by
    have hpi := Real.pi_pos
    simp only [CameraController.new, abs_zero]
    positivity
  exact ⟨hpitch,
    update_camera_no_zero_normalization (CameraController.new 5) levelCamera hpitch rfl⟩

/-- C2 counterexample: the claim fails on the code.  First, the code's
clip-space correction does not remap depth from [-1,1] to [0,1]: it sends
the clip point (0,0,-1,1) — normalized depth -1 — to normalized depth -1
again instead of 0 (cgmath's `Matrix4::new` is column-major, so the
constant is the transpose of the remapping matrix).  Second, at a concrete
90°-yaw camera the matrix the code builds differs from the spec's
composition with the conjugated (inverted) stored quaternion. -/
theorem clip_correction_counterexample :
    ¬ remapsDepthToZeroOne OPENGL_TO_WGPU_MATRIX ∧
    Camera.build_view_projection_matrix yaw90Camera ≠ specC2ViewProjection yaw90Camera := by
  constructor
  · intro hremap
    have hv3 : (![0, 0, -1, 1] : Fin 4 → ℝ) 3 = 1 := rfl
    have hv2 : (![0, 0, -1, 1] : Fin 4 → ℝ) 2 = -1 := rfl
    have h := hremap ![0, 0, -1, 1] (by rw [hv3]; norm_num)
      (by rw [hv2, hv3]; norm_num) (by rw [hv2, hv3]; norm_num)
    have himg := (h.2.1 (by rw [hv2, hv3]; norm_num))
    have h2 : OPENGL_TO_WGPU_MATRIX.mulVec ![0, 0, -1, 1] 2 = -(1 / 2) := by
      simp [OPENGL_TO_WGPU_MATRIX, Matrix4.new, Matrix.mulVec, Matrix.dotProduct, Fin.sum_univ_four]
      norm_num
    have h3 : OPENGL_TO_WGPU_MATRIX.mulVec ![0, 0, -1, 1] 3 = 1 / 2 := by
      simp [OPENGL_TO_WGPU_MATRIX, Matrix4.new, Matrix.mulVec, Matrix.dotProduct, Fin.sum_univ_four]
      norm_num
    rw [h2, h3] at himg
    norm_num at himg
  · intro heq
    have h20 := congrFun (congrFun heq 2) 0
    have hs2 : Real.sqrt 2 * Real.sqrt 2 = 2 := Real.mul_self_sqrt (by norm_num)
    simp [Camera.build_view_projection_matrix, specC2ViewProjection, yaw90Camera,
      OPENGL_TO_WGPU_MATRIX, Matrix4.new, Matrix4.from_quat, Matrix4.from_translation,
      perspective, Quat.conjugate, Matrix.mul_apply, Fin.sum_univ_four] at h20
    have hpos : 0 < Real.sqrt 2 := Real.sqrt_pos.mpr (by norm_num)
    rcases h20 with h | h | h | h
    · nlinarith
    · norm_num at h
    · norm_num at h
    · norm_num at h

/-- C2 (amended): `build_view_projection_matrix` composes
`OPENGL_TO_WGPU_MATRIX * proj * view` with
`proj = perspective(fovy, aspect, znear, zfar)` and
`view = Rotation(rotation) * Translation(-eye)` — the stored quaternion
applied directly, not its conjugate — and the correction matrix acts on
clip coordinates as `(x, y, z, w) ↦ (x, y, z/2, z/2 + w)`, which fixes
normalized depth -1 instead of remapping [-1,1] to [0,1]. -/
theorem build_view_projection_amended (c : Camera) :
    c.build_view_projection_matrix =
      OPENGL_TO_WGPU_MATRIX * perspective c.fovy c.aspect c.znear c.zfar *
        (Matrix4.from_quat c.rotation * Matrix4.from_translation (-c.eye)) ∧
    ∀ v : Fin 4 → ℝ,
      OPENGL_TO_WGPU_MATRIX.mulVec v 0 = v 0 ∧
      OPENGL_TO_WGPU_MATRIX.mulVec v 1 = v 1 ∧
      OPENGL_TO_WGPU_MATRIX.mulVec v 2 = v 2 / 2 ∧
      OPENGL_TO_WGPU_MATRIX.mulVec v 3 = v 2 / 2 + v 3 := by
  refine ⟨rfl, fun v => ⟨?_, ?_, ?_, ?_⟩⟩ <;>
    · simp [OPENGL_TO_WGPU_MATRIX, Matrix4.new, Matrix.mulVec, Matrix.dotProduct,
        Fin.sum_univ_four]
      try ring

end VoxelGame
